import Mathlib

/-!
Shallow embedding of the caching-pattern services
(`src/caching-patterns/write_behind/main.py`,
`src/caching-patterns/write_through/main.py`,
`src/caching-patterns/refresh_ahead/main.py`).

The cache (Redis) is modelled as a function from user ids to optional
entries; the durable store (Postgres `users` table) as a list of rows plus
a serial id counter.  Background-worker ticks become explicit state
functions; transient store failures are injected through boolean oracles
mirroring the per-operation `try`/`except` blocks of the source.
-/

/-- The `User` pydantic model (`id` is always set by the time it matters). -/
structure User where
  id : Nat
  name : String
  email : String
  age : Nat
  deriving DecidableEq, Repr

/-- One row of the Postgres `users` table. -/
structure DbRow where
  id : Nat
  name : String
  email : String
  age : Nat
  deriving DecidableEq, Repr

/-- The durable store: the `users` table plus its serial-id sequence. -/
structure Db where
  rows : List DbRow
  nextId : Nat
  deriving DecidableEq, Repr

/-- `SELECT id, name, email, age FROM users WHERE id = $1`. -/
def dbLookup (db : Db) (i : Nat) : Option DbRow :=
  db.rows.find? (fun r => r.id = i)

/-- Convert a fetched row into the `User` model, as the handlers do. -/
def rowToUser (r : DbRow) : User :=
  { id := r.id, name := r.name, email := r.email, age := r.age }

/-- `INSERT INTO users ... ON CONFLICT (email) DO UPDATE SET name, age`
(write-behind create flush). -/
def dbUpsertByEmail (db : Db) (u : User) : Db :=
  if db.rows.any (fun r => r.email = u.email) then
    { db with rows := db.rows.map (fun r =>
        if r.email = u.email then { r with name := u.name, age := u.age } else r) }
  else
    { rows := db.rows ++ [{ id := db.nextId, name := u.name, email := u.email, age := u.age }],
      nextId := db.nextId + 1 }

/-- `UPDATE users SET name, email, age WHERE id = $4` (no-op when absent). -/
def dbUpdateById (db : Db) (i : Nat) (u : User) : Db :=
  { db with rows := db.rows.map (fun r =>
      if r.id = i then { r with name := u.name, email := u.email, age := u.age } else r) }

/-- `DELETE FROM users WHERE id = $1` (no-op when absent). -/
def dbDeleteById (db : Db) (i : Nat) : Db :=
  { db with rows := db.rows.filter (fun r => r.id ≠ i) }

/-! ## Write-behind service (`write_behind/main.py`) -/

/-- A queued write operation, the JSON payload pushed on `write_queue`. -/
inductive Mutation where
  | create (u : User)
  | update (u : User)
  | delete (id : Nat)
  deriving DecidableEq, Repr

/-- `BATCH_SIZE = 10`. -/
def BATCH_SIZE : Nat := 10

/-- The `write_stats` dict (`last_flush` timestamp omitted: never branched on). -/
structure WbStats where
  cached_writes : Nat
  db_flushes : Nat
  pending_writes : Nat
  deriving DecidableEq, Repr

/-- State of the write-behind service: Redis keys `user:{id}` (cache),
the `write_queue` list, the `user_id_counter`, the Postgres table, stats. -/
structure WbState where
  cache : Nat → Option User
  queue : List Mutation
  db : Db
  counter : Nat
  stats : WbStats

/-- Apply one dequeued write to the database, per the `operation` field
dispatch inside `_flush_to_database`. -/
def applyMutation (db : Db) (m : Mutation) : Db :=
  match m with
  | .create u => dbUpsertByEmail db u
  | .update u => dbUpdateById db u.id u
  | .delete i => dbDeleteById db i

/-- The per-write loop of `_flush_to_database`: apply each popped write;
on failure (oracle `failAt` true at the write's batch index) re-append it
to the queue tail and continue with the rest of the batch. -/
def processWrites (failAt : Nat → Bool) (i : Nat) (ws : List Mutation)
    (db : Db) (requeued : List Mutation) (flushes : Nat) :
    Db × List Mutation × Nat :=
  match ws with
  | [] => (db, requeued, flushes)
  | w :: rest =>
    if failAt i then
      processWrites failAt (i + 1) rest db (requeued ++ [w]) flushes
    else
      processWrites failAt (i + 1) rest (applyMutation db w) requeued (flushes + 1)

/-- Specification-side characterization: the writes of a batch that fail
under the oracle `failAt`, in batch order, starting at index `i`. -/
def failedFrom (failAt : Nat → Bool) (i : Nat) : List Mutation → List Mutation
  | [] => []
  | w :: rest =>
    if failAt i then w :: failedFrom failAt (i + 1) rest
    else failedFrom failAt (i + 1) rest

/-- Specification-side characterization: the writes of a batch that succeed
under the oracle `failAt`, in batch order, starting at index `i`. -/
def appliedFrom (failAt : Nat → Bool) (i : Nat) : List Mutation → List Mutation
  | [] => []
  | w :: rest =>
    if failAt i then appliedFrom failAt (i + 1) rest
    else w :: appliedFrom failAt (i + 1) rest

/-- Number of durable rows carrying a given natural key (email). -/
def countEmail (db : Db) (e : String) : Nat :=
  (db.rows.filter (fun r => r.email = e)).length

/-- `_flush_to_database`: pop up to `BATCH_SIZE` writes from the queue head,
return early if none, process them, then refresh the stats counters. -/
def wbFlushToDatabase (failAt : Nat → Bool) (s : WbState) : WbState :=
  let writes := s.queue.take BATCH_SIZE
  if writes.isEmpty then s
  else
    let rest := s.queue.drop BATCH_SIZE
    let r := processWrites failAt 0 writes s.db [] 0
    let q := rest ++ r.2.1
    { s with db := r.1, queue := q,
             stats := { s.stats with
                          db_flushes := s.stats.db_flushes + r.2.2,
                          pending_writes := q.length } }

/-- The `/flush` endpoint (`force_flush`): a single `_flush_to_database` call. -/
def wbForceFlush (failAt : Nat → Bool) (s : WbState) : WbState :=
  wbFlushToDatabase failAt s

/-- `WriteBehindCache.get_user`: cache first, then database fallback with
cache fill. -/
def wbGetUser (s : WbState) (i : Nat) : Option User × WbState :=
  match s.cache i with
  | some u => (some u, s)
  | none =>
    match dbLookup s.db i with
    | none => (none, s)
    | some r =>
      let u := rowToUser r
      (some u, { s with cache := fun j => if j = i then some u else s.cache j })

/-- `WriteBehindCache.create_user`: take a fresh id from `user_id_counter`,
write the cache entry, enqueue a create mutation, bump stats. -/
def wbCreateUser (s : WbState) (u : User) : User × WbState :=
  let newId := s.counter + 1
  let u2 := { u with id := newId }
  let q := s.queue ++ [Mutation.create u2]
  (u2, { s with counter := newId,
                cache := fun j => if j = newId then some u2 else s.cache j,
                queue := q,
                stats := { s.stats with
                             cached_writes := s.stats.cached_writes + 1,
                             pending_writes := q.length } })

/-- `WriteBehindCache.update_user`: overwrite the cache entry, enqueue an
update mutation, bump stats. -/
def wbUpdateUser (s : WbState) (i : Nat) (u : User) : User × WbState :=
  let u2 := { u with id := i }
  let q := s.queue ++ [Mutation.update u2]
  (u2, { s with cache := fun j => if j = i then some u2 else s.cache j,
                queue := q,
                stats := { s.stats with
                             cached_writes := s.stats.cached_writes + 1,
                             pending_writes := q.length } })

/-- `WriteBehindCache.delete_user`: delete the cache key, enqueue a delete
mutation, bump stats.  No failure path exists: the `/users/{id}` DELETE
endpoint returns 204 unconditionally. -/
def wbDeleteUser (s : WbState) (i : Nat) : WbState :=
  let q := s.queue ++ [Mutation.delete i]
  { s with cache := fun j => if j = i then none else s.cache j,
           queue := q,
           stats := { s.stats with
                        cached_writes := s.stats.cached_writes + 1,
                        pending_writes := q.length } }

/-! ## Write-through service (`write_through/main.py`) -/

/-- A transient cache/durable-store I/O failure (a raised exception). -/
inductive WtErr where
  | transientStore
  deriving DecidableEq, Repr

/-- State of the write-through service: Redis `user:{id}` keys and the
Postgres table. -/
structure WtState where
  cache : Nat → Option User
  db : Db

/-- `WriteThroughCache.update_user` with failure injection.  `dbFail`
raises inside the `UPDATE ... RETURNING` step, `cacheFail` inside the
subsequent `setex`; the shared `except` block deletes the cache key and
re-raises.  A missing row returns `none` with no exception. -/
def wtUpdateUser (dbFail cacheFail : Bool) (s : WtState) (i : Nat) (u : User) :
    Except WtErr (Option User) × WtState :=
  if dbFail then
    (Except.error WtErr.transientStore,
     { s with cache := fun j => if j = i then none else s.cache j })
  else
    match dbLookup s.db i with
    | none => (Except.ok none, { s with db := dbUpdateById s.db i u })
    | some _ =>
      let db2 := dbUpdateById s.db i u
      let u2 : User := { id := i, name := u.name, email := u.email, age := u.age }
      if cacheFail then
        (Except.error WtErr.transientStore,
         { s with db := db2, cache := fun j => if j = i then none else s.cache j })
      else
        (Except.ok (some u2),
         { s with db := db2, cache := fun j => if j = i then some u2 else s.cache j })

/-! ## Refresh-ahead service (`refresh_ahead/main.py`) -/

/-- `CACHE_TTL = 60` seconds. -/
def RA_CACHE_TTL : Nat := 60

/-- `CACHE_TTL * (1 - REFRESH_THRESHOLD)` = `60 * 0.25` = 15; as the stored
TTL is an integer number of seconds, `ttl < 15.0` is `ttl < 15`. -/
def REFRESH_TTL_LIMIT : Int := 15

/-- `ACCESS_THRESHOLD = 3`. -/
def ACCESS_THRESHOLD : Nat := 3

/-- The `refresh_stats` dict. -/
structure RaStats where
  total_reads : Nat
  cache_hits : Nat
  cache_misses : Nat
  proactive_refreshes : Nat
  hot_items : Nat
  deriving DecidableEq, Repr

/-- State of the refresh-ahead service: Redis `user:{id}` keys (entry plus
remaining TTL in seconds), the `access_counts` hash, the `hot_items` set
(kept as a duplicate-free list), the Postgres table, and stats. -/
structure RaState where
  cache : Nat → Option (User × Nat)
  db : Db
  accessCounts : Nat → Nat
  hotSet : List Nat
  stats : RaStats

/-- `redis.ttl(key)`: the remaining lifetime in seconds, `-2` when the key
is absent.  Live keys written by `setex` always carry a positive TTL. -/
def raTtl (s : RaState) (k : Nat) : Int :=
  match s.cache k with
  | none => -2
  | some p => (p.2 : Int)

/-- The passage of `d` seconds of Redis expiry: entries whose TTL has run
out vanish, the others keep a (still positive) reduced TTL. -/
def raPassTime (s : RaState) (d : Nat) : RaState :=
  { s with cache := fun j =>
      match s.cache j with
      | none => none
      | some (u, t) => if t ≤ d then none else some (u, t - d) }

/-- `_track_access`: `HINCRBY` the per-key counter, and once it reaches
`ACCESS_THRESHOLD` `SADD` the key to `hot_items` and refresh the
`hot_items` stat. -/
def raTrackAccess (s : RaState) (i : Nat) : RaState :=
  let c := s.accessCounts i + 1
  let s1 := { s with accessCounts := fun j => if j = i then c else s.accessCounts j }
  if ACCESS_THRESHOLD ≤ c then
    let h := if i ∈ s1.hotSet then s1.hotSet else s1.hotSet ++ [i]
    { s1 with hotSet := h, stats := { s1.stats with hot_items := h.length } }
  else s1

/-- `RefreshAheadCache.get_user`: track the access, then cache-first read
with database fallback and cache fill; exactly one of the hit/miss
counters is bumped (a missing row still counts as a miss). -/
def raGetUser (s : RaState) (i : Nat) : Option User × RaState :=
  let s1 := raTrackAccess s i
  match s1.cache i with
  | some p =>
    (some p.1, { s1 with stats := { s1.stats with cache_hits := s1.stats.cache_hits + 1 } })
  | none =>
    let s2 := { s1 with stats := { s1.stats with cache_misses := s1.stats.cache_misses + 1 } }
    match dbLookup s2.db i with
    | none => (none, s2)
    | some r =>
      let u := rowToUser r
      (some u, { s2 with cache := fun j => if j = i then some (u, RA_CACHE_TTL) else s2.cache j })

/-- The `GET /users/{id}` endpoint: bump `total_reads`, then `get_user`
(the 404 on a missing user happens after all counter updates). -/
def raReadEndpoint (s : RaState) (i : Nat) : Option User × RaState :=
  let s1 := { s with stats := { s.stats with total_reads := s.stats.total_reads + 1 } }
  raGetUser s1 i

/-- `RefreshAheadCache.create_user`: `INSERT ... RETURNING`, then cache the
created row with a full TTL. -/
def raCreateUser (s : RaState) (u : User) : User × RaState :=
  let r : DbRow := { id := s.db.nextId, name := u.name, email := u.email, age := u.age }
  let u2 := rowToUser r
  (u2, { s with db := { rows := s.db.rows ++ [r], nextId := s.db.nextId + 1 },
                cache := fun j => if j = r.id then some (u2, RA_CACHE_TTL) else s.cache j })

/-- `RefreshAheadCache.update_user`: `UPDATE ... RETURNING`; when a row
matched, rewrite the cache entry with a full TTL. -/
def raUpdateUser (s : RaState) (i : Nat) (u : User) : Option User × RaState :=
  match dbLookup s.db i with
  | none => (none, { s with db := dbUpdateById s.db i u })
  | some _ =>
    let u2 : User := { id := i, name := u.name, email := u.email, age := u.age }
    (some u2, { s with db := dbUpdateById s.db i u,
                       cache := fun j => if j = i then some (u2, RA_CACHE_TTL) else s.cache j })

/-- `RefreshAheadCache.delete_user`: `DELETE` by id; when a row was
deleted, also delete the cache key, `SREM` it from `hot_items` and `HDEL`
its access counter. -/
def raDeleteUser (s : RaState) (i : Nat) : Bool × RaState :=
  if (dbLookup s.db i).isSome then
    (true, { s with db := dbDeleteById s.db i,
                    cache := fun j => if j = i then none else s.cache j,
                    hotSet := s.hotSet.filter (fun k => k ≠ i),
                    accessCounts := fun j => if j = i then 0 else s.accessCounts j })
  else (false, s)

/-- `_refresh_user`: reload the row from the database; when present,
overwrite the cache entry with a full TTL (nothing happens when absent). -/
def raRefreshUser (s : RaState) (i : Nat) : RaState :=
  match dbLookup s.db i with
  | some r =>
    { s with cache := fun j => if j = i then some (rowToUser r, RA_CACHE_TTL) else s.cache j }
  | none => s

/-- The per-key body of `_refresh_hot_items`: check the TTL; `ttl <= 0`
demotes the key from `hot_items`; a TTL below the refresh limit reloads
the entry and bumps `proactive_refreshes`; otherwise skip. -/
def raTickStep (s : RaState) (k : Nat) : RaState :=
  let t := raTtl s k
  if t ≤ 0 then
    { s with hotSet := s.hotSet.filter (fun j => j ≠ k) }
  else if t < REFRESH_TTL_LIMIT then
    let s2 := raRefreshUser s k
    { s2 with stats := { s2.stats with proactive_refreshes := s2.stats.proactive_refreshes + 1 } }
  else s

/-- `_refresh_hot_items`: snapshot `hot_items`, return early when empty,
run the per-key body over the snapshot, then refresh the `hot_items`
stat. -/
def raRefreshTick (s : RaState) : RaState :=
  let hot := s.hotSet
  if hot.isEmpty then s
  else
    let s2 := hot.foldl raTickStep s
    { s2 with stats := { s2.stats with hot_items := s2.hotSet.length } }

/-- The refresh-ahead cache-database consistency invariant: every cached
id has a durable row.  It holds in every state reachable through the
service's own operations (reads fill the cache only from fetched rows,
creates insert before caching, updates cache only matched rows, deletes
clear the cache key together with the row, refreshes are guarded by the
row lookup). -/
def raConsistent (s : RaState) : Prop :=
  ∀ (j : Nat) (p : User × Nat), s.cache j = some p → (dbLookup s.db j).isSome = true

/-! ## Concrete states used by counterexamples and witnesses -/

/-- A sample user with id 1. -/
def exUser1 : User := { id := 1, name := "Alice", email := "alice@example.com", age := 20 }

/-- The durable row corresponding to `exUser1`. -/
def exRow1 : DbRow := { id := 1, name := "Alice", email := "alice@example.com", age := 20 }

/-- Zeroed write-behind stats. -/
def wbStats0 : WbStats := { cached_writes := 0, db_flushes := 0, pending_writes := 0 }

/-- Write-behind state: empty cache and queue, one durable row (id 1). -/
def wbS0 : WbState :=
  { cache := fun _ => none, queue := [], db := { rows := [exRow1], nextId := 2 },
    counter := 1, stats := wbStats0 }

/-- Write-behind state with nothing anywhere (empty cache, queue, table). -/
def wbEmptyS : WbState :=
  { cache := fun _ => none, queue := [], db := { rows := [], nextId := 1 },
    counter := 0, stats := wbStats0 }

/-- Write-behind state with eleven queued mutations (one more than a batch). -/
def wbS11 : WbState :=
  { cache := fun _ => none, queue := List.replicate 11 (Mutation.delete 1),
    db := { rows := [], nextId := 1 }, counter := 0, stats := wbStats0 }

/-- Update payload setting user 7 to age 30. -/
def exU30 : User := { id := 7, name := "Bob", email := "bob@example.com", age := 30 }

/-- Update payload setting user 7 to age 31. -/
def exU31 : User := { id := 7, name := "Bob", email := "bob@example.com", age := 31 }

/-- Write-behind state whose queue holds the two competing updates of user 7. -/
def wbS7 : WbState :=
  { cache := fun _ => none,
    queue := [Mutation.update exU30, Mutation.update exU31],
    db := { rows := [{ id := 7, name := "Bob", email := "bob@example.com", age := 25 }],
            nextId := 8 },
    counter := 7, stats := wbStats0 }

/-- Failure oracle making exactly the first write of a batch fail. -/
def failFirst : Nat → Bool := fun n => n == 0

/-- Write-through state: user 1 durable and cached. -/
def wtS0 : WtState :=
  { cache := fun j => if j = 1 then some exUser1 else none,
    db := { rows := [exRow1], nextId := 2 } }

/-- An update payload for the write-through counterexample. -/
def wtUNew : User := { id := 1, name := "Alice", email := "alice@example.com", age := 21 }

/-- Zeroed refresh-ahead stats. -/
def raStats0 : RaStats :=
  { total_reads := 0, cache_hits := 0, cache_misses := 0,
    proactive_refreshes := 0, hot_items := 0 }

/-- Refresh-ahead state: user 1 durable, cached with 5 s of lifetime left,
hot, with three recorded accesses. -/
def raS0 : RaState :=
  { cache := fun j => if j = 1 then some (exUser1, 5) else none,
    db := { rows := [exRow1], nextId := 2 },
    accessCounts := fun j => if j = 1 then 3 else 0,
    hotSet := [1],
    stats := raStats0 }

/-- Refresh-ahead state: user 1 hot but its cache entry already gone. -/
def raS1 : RaState :=
  { cache := fun _ => none,
    db := { rows := [exRow1], nextId := 2 },
    accessCounts := fun j => if j = 1 then 3 else 0,
    hotSet := [1],
    stats := raStats0 }

/-! ## Write-queue lemmas -/

/-- Without failures the per-write loop applies every write in order and
requeues nothing. -/
theorem processWrites_noFail (ws : List Mutation) :
    ∀ (i : Nat) (db : Db) (req : List Mutation) (fl : Nat),
      processWrites (fun _ => false) i ws db req fl
        = (ws.foldl applyMutation db, req, fl + ws.length) := by
  induction ws with
  | nil => intro i db req fl; simp [processWrites]
  | cons w rest ih =>
    intro i db req fl
    simp [processWrites, ih]
    omega

/-- The requeued writes of a batch are appended, in batch order, to the
accumulator (hence to the queue tail). -/
theorem processWrites_requeued (ws : List Mutation) :
    ∀ (failAt : Nat → Bool) (i : Nat) (db : Db) (req : List Mutation) (fl : Nat),
      (processWrites failAt i ws db req fl).2.1 = req ++ failedFrom failAt i ws := by
  induction ws with
  | nil => intro failAt i db req fl; simp [processWrites, failedFrom]
  | cons w rest ih =>
    intro failAt i db req fl
    by_cases hf : failAt i
    · simp [processWrites, failedFrom, hf, ih]
    · simp [processWrites, failedFrom, hf, ih]

/-- The database after the per-write loop is the left fold of the
non-failing writes, in batch order. -/
theorem processWrites_db (ws : List Mutation) :
    ∀ (failAt : Nat → Bool) (i : Nat) (db : Db) (req : List Mutation) (fl : Nat),
      (processWrites failAt i ws db req fl).1
        = (appliedFrom failAt i ws).foldl applyMutation db := by
  induction ws with
  | nil => intro failAt i db req fl; simp [processWrites, appliedFrom]
  | cons w rest ih =>
    intro failAt i db req fl
    by_cases hf : failAt i
    · simp [processWrites, appliedFrom, hf, ih]
    · simp [processWrites, appliedFrom, hf, ih]

/-- Under the all-success oracle no write fails. -/
theorem failedFrom_noFail (ws : List Mutation) :
    ∀ i : Nat, failedFrom (fun _ => false) i ws = [] := by
  induction ws with
  | nil => intro i; simp [failedFrom]
  | cons w rest ih => intro i; simp [failedFrom, ih]

/-- Under the all-success oracle every write is applied. -/
theorem appliedFrom_noFail (ws : List Mutation) :
    ∀ i : Nat, appliedFrom (fun _ => false) i ws = ws := by
  induction ws with
  | nil => intro i; simp [appliedFrom]
  | cons w rest ih => intro i; simp [appliedFrom, ih]

/-- Queue shape after one flush tick: the unpopped remainder followed by
the batch's failed writes, in order. -/
theorem wbFlushToDatabase_queue (failAt : Nat → Bool) (s : WbState) :
    (wbFlushToDatabase failAt s).queue
      = s.queue.drop BATCH_SIZE ++ failedFrom failAt 0 (s.queue.take BATCH_SIZE) := by
  unfold wbFlushToDatabase
  rcases hq : s.queue with _ | ⟨m, q⟩
  · simp [hq, failedFrom]
  · have hw : (List.take BATCH_SIZE (m :: q)).isEmpty = false := by
      simp [BATCH_SIZE]
    simp [hq, hw, processWrites_requeued]

/-- Database after one flush tick: the fold of the batch's successful
writes. -/
theorem wbFlushToDatabase_db (failAt : Nat → Bool) (s : WbState) :
    (wbFlushToDatabase failAt s).db
      = (appliedFrom failAt 0 (s.queue.take BATCH_SIZE)).foldl applyMutation s.db := by
  unfold wbFlushToDatabase
  rcases hq : s.queue with _ | ⟨m, q⟩
  · simp [hq, appliedFrom]
  · have hw : (List.take BATCH_SIZE (m :: q)).isEmpty = false := by
      simp [BATCH_SIZE]
    simp [hq, hw, processWrites_db]

/-- A failure-free flush tick just drops one batch from the queue head. -/
theorem wbFlushToDatabase_noFail_queue (s : WbState) :
    (wbFlushToDatabase (fun _ => false) s).queue = s.queue.drop BATCH_SIZE := by
  rw [wbFlushToDatabase_queue, failedFrom_noFail, List.append_nil]

/-- Iterated failure-free flush ticks drop one batch each. -/
theorem wbFlushToDatabase_noFail_iterate (k : Nat) :
    ∀ s : WbState,
      ((wbFlushToDatabase (fun _ => false))^[k] s).queue
        = s.queue.drop (k * BATCH_SIZE) := by
  induction k with
  | zero => intro s; simp
  | succ n ih =>
    intro s
    rw [Function.iterate_succ_apply, ih, wbFlushToDatabase_noFail_queue,
      List.drop_drop]
    congr 1
    ring

/-- One upsert brings the number of rows carrying the entity's email to
one when there was none, and otherwise only rewrites attributes in place. -/
theorem countEmail_upsert (db : Db) (u : User) :
    countEmail (dbUpsertByEmail db u) u.email
      = if countEmail db u.email = 0 then 1 else countEmail db u.email := by
  unfold dbUpsertByEmail countEmail
  by_cases hany : db.rows.any (fun r => r.email = u.email) = true
  · have hpf : ((fun r : DbRow => decide (r.email = u.email)) ∘ (fun r =>
        if r.email = u.email then { r with name := u.name, age := u.age } else r))
        = fun r : DbRow => decide (r.email = u.email) := by
      funext r
      by_cases hr : r.email = u.email <;> simp [hr]
    obtain ⟨r, hr, hp⟩ := List.any_eq_true.mp hany
    have hpos : 0 < (db.rows.filter (fun r => r.email = u.email)).length :=
      List.length_pos_of_mem (List.mem_filter.mpr ⟨hr, hp⟩)
    simp only [hany, if_true, List.filter_map, hpf, List.length_map]
    rw [if_neg (by omega)]
  · have hnil : db.rows.filter (fun r => r.email = u.email) = [] := by
      rw [List.filter_eq_nil_iff]
      intro r hr
      simp only [decide_eq_true_eq]
      intro heq
      exact hany (List.any_eq_true.mpr ⟨r, hr, by simp [heq]⟩)
    simp [hany, List.filter_append, hnil]

/-- When a row with the entity's email already exists, the upsert takes
the conflict-update branch and does not grow the table. -/
theorem dbUpsert_length_of_exists (db : Db) (u : User) :
    1 ≤ countEmail db u.email → (dbUpsertByEmail db u).rows.length = db.rows.length := by
  intro h
  have hne : db.rows.filter (fun r => r.email = u.email) ≠ [] := by
    intro hnil
    rw [countEmail, hnil] at h
    simp at h
  have hany : db.rows.any (fun r => r.email = u.email) = true := by
    rw [List.any_eq_true]
    obtain ⟨r, hr⟩ := List.exists_mem_of_ne_nil _ hne
    exact ⟨r, (List.mem_filter.mp hr).1, (List.mem_filter.mp hr).2⟩
  simp [dbUpsertByEmail, hany]

/-! ## Claim theorems: write-behind and write-through -/

/-- C1, counterexample: in state `wbS0` user 1 exists durably and is not
cached; after `delete_user 1` returns (durable delete still pending), a
`get_user 1` falls through to the database and observes the undeleted
durable value instead of absence — refuting the delete case of the claim. -/
theorem wbDelete_then_read_resurrects :
    (wbGetUser (wbDeleteUser wbS0 1) 1).1 = some exUser1 ∧
    (wbGetUser (wbDeleteUser wbS0 1) 1).1 ≠ none := by
  refine ⟨by decide, by decide⟩

/-- C1, amended: after a write-behind create or update returns, a
subsequent read of the key observes the written value even though the
durable store is untouched; after a delete, a subsequent read observes
absence only when the durable store also lacks the identity (otherwise the
database fallback resurrects the durable value). -/
theorem wb_writeBehind_visibility :
    (∀ (s : WbState) (i : Nat) (u : User),
        (wbGetUser (wbUpdateUser s i u).2 i).1 = some { u with id := i }) ∧
    (∀ (s : WbState) (u : User),
        (wbGetUser (wbCreateUser s u).2 (s.counter + 1)).1
          = some { u with id := s.counter + 1 }) ∧
    (∀ (s : WbState) (i : Nat),
        dbLookup s.db i = none → (wbGetUser (wbDeleteUser s i) i).1 = none) := by
  refine ⟨?_, ?_, ?_⟩
  · intro s i u
    simp [wbGetUser, wbUpdateUser]
  · intro s u
    simp [wbGetUser, wbCreateUser]
  · intro s i h
    simp [wbGetUser, wbDeleteUser, h]

/-- Witness for `wb_writeBehind_visibility` at concrete inputs. -/
theorem wb_writeBehind_visibility_witness :
    (wbGetUser (wbUpdateUser wbEmptyS 2 exUser1).2 2).1 = some { exUser1 with id := 2 } ∧
    (wbGetUser (wbDeleteUser wbEmptyS 1) 1).1 = none :=
  ⟨wb_writeBehind_visibility.1 wbEmptyS 2 exUser1,
   wb_writeBehind_visibility.2.2 wbEmptyS 1 (by decide)⟩

/-- C2, counterexample: with eleven queued mutations and no failures, one
`force_flush` call leaves one mutation pending — it processes a single
batch of `BATCH_SIZE`, not the whole queue. -/
theorem wbForceFlush_not_full_drain :
    wbS11.queue.length = 11 ∧ (wbForceFlush (fun _ => false) wbS11).queue.length = 1 := by
  refine ⟨by decide, by decide⟩

/-- C2, amended: one forced flush (manual trigger or shutdown) processes
exactly one batch: with no failures the pending-queue length afterwards is
the previous length minus `BATCH_SIZE` (truncated at zero), so it reaches
zero only when at most `BATCH_SIZE` mutations were queued. -/
theorem wbForceFlush_single_batch (s : WbState) :
    (wbForceFlush (fun _ => false) s).queue.length = s.queue.length - BATCH_SIZE := by
  unfold wbForceFlush
  rw [wbFlushToDatabase_noFail_queue, List.length_drop]

/-- C8: a backlog of `n` queued mutations with no failures is fully
drained after `⌈n / BATCH_SIZE⌉` flush ticks. -/
theorem wbFlush_backlog_drained (s : WbState) :
    ((wbFlushToDatabase (fun _ => false))^[(s.queue.length + BATCH_SIZE - 1) / BATCH_SIZE]
        s).queue.length = 0 := by
  rw [wbFlushToDatabase_noFail_iterate, List.length_drop]
  have h := Nat.div_add_mod (s.queue.length + BATCH_SIZE - 1) BATCH_SIZE
  simp only [BATCH_SIZE] at *
  omega

/-- C5: a failing mutation is re-appended to the queue tail (after the
unpopped remainder) while the rest of the batch is still applied in order;
in the two-update scenario on user 7, the first tick (first write fails)
leaves the durable age at 31 with the failed update requeued, and the next
tick applies it, so age 30 lands after age 31. -/
theorem wbFlush_requeue_tail_reorders :
    (∀ (failAt : Nat → Bool) (s : WbState),
        (wbFlushToDatabase failAt s).queue
          = s.queue.drop BATCH_SIZE ++ failedFrom failAt 0 (s.queue.take BATCH_SIZE) ∧
        (wbFlushToDatabase failAt s).db
          = (appliedFrom failAt 0 (s.queue.take BATCH_SIZE)).foldl applyMutation s.db) ∧
    (dbLookup (wbFlushToDatabase failFirst wbS7).db 7
        = some { id := 7, name := "Bob", email := "bob@example.com", age := 31 } ∧
     (wbFlushToDatabase failFirst wbS7).queue = [Mutation.update exU30] ∧
     dbLookup (wbFlushToDatabase (fun _ => false) (wbFlushToDatabase failFirst wbS7)).db 7
        = some { id := 7, name := "Bob", email := "bob@example.com", age := 30 }) := by
  refine ⟨fun failAt s => ⟨wbFlushToDatabase_queue failAt s, wbFlushToDatabase_db failAt s⟩,
    by decide, by decide, by decide⟩

/-- C7: flushing the same create mutation twice collapses to a single
durable row for its email (given the unique-email table invariant), the
second application updating in place rather than inserting. -/
theorem wbCreate_flush_idempotent :
    ∀ (db : Db) (u : User), countEmail db u.email ≤ 1 →
      countEmail (applyMutation (applyMutation db (Mutation.create u)) (Mutation.create u))
          u.email = 1 ∧
      (applyMutation (applyMutation db (Mutation.create u)) (Mutation.create u)).rows.length
        = (applyMutation db (Mutation.create u)).rows.length := by
  intro db u h
  have h1 : countEmail (dbUpsertByEmail db u) u.email = 1 := by
    rw [countEmail_upsert]
    split <;> omega
  refine ⟨?_, ?_⟩
  · show countEmail (dbUpsertByEmail (dbUpsertByEmail db u) u) u.email = 1
    rw [countEmail_upsert, h1]
    simp
  · show (dbUpsertByEmail (dbUpsertByEmail db u) u).rows.length
        = (dbUpsertByEmail db u).rows.length
    exact dbUpsert_length_of_exists _ u (by rw [h1])

/-- Witness for `wbCreate_flush_idempotent` at a concrete input. -/
theorem wbCreate_flush_idempotent_witness :
    countEmail (applyMutation (applyMutation wbEmptyS.db (Mutation.create exUser1))
        (Mutation.create exUser1)) exUser1.email = 1 :=
  (wbCreate_flush_idempotent wbEmptyS.db exUser1 (by decide)).1

/-- C10: write-behind delete never fails: it clears the cache key,
enqueues a delete mutation (and the endpoint answers 204 with no
error path), and the deferred durable delete is a no-op when the identity
is absent. -/
theorem wbDeleteUser_never_fails :
    ∀ (s : WbState) (i : Nat),
      (wbDeleteUser s i).cache i = none ∧
      (wbDeleteUser s i).queue = s.queue ++ [Mutation.delete i] ∧
      (∀ db : Db, dbLookup db i = none → applyMutation db (Mutation.delete i) = db) := by
  intro s i
  refine ⟨by simp [wbDeleteUser], rfl, ?_⟩
  intro db h
  have hall : db.rows.filter (fun r => r.id ≠ i) = db.rows := by
    rw [List.filter_eq_self]
    intro r hr
    have := List.find?_eq_none.mp h r hr
    simpa using this
  show dbDeleteById db i = db
  unfold dbDeleteById
  rw [hall]

/-- Witness for `wbDeleteUser_never_fails` at concrete inputs. -/
theorem wbDeleteUser_never_fails_witness :
    (wbDeleteUser wbEmptyS 1).cache 1 = none ∧
    applyMutation wbEmptyS.db (Mutation.delete 1) = wbEmptyS.db :=
  ⟨(wbDeleteUser_never_fails wbEmptyS 1).1,
   (wbDeleteUser_never_fails wbEmptyS 1).2.2 wbEmptyS.db (by decide)⟩

/-- C3, counterexample: user 1 is cached in `wtS0`; a write-through update
whose durable write fails propagates the error but deletes the cached
entry, so the cache is not left untouched. -/
theorem wtUpdate_durable_failure_touches_cache :
    wtS0.cache 1 = some exUser1 ∧
    (wtUpdateUser true false wtS0 1 wtUNew).1 = Except.error WtErr.transientStore ∧
    (wtUpdateUser true false wtS0 1 wtUNew).2.cache 1 = none := by
  refine ⟨rfl, rfl, rfl⟩

/-- C3, amended: when the durable write of a write-through update fails,
the error is propagated, the durable store is unchanged, and the cache
entry for that key is deleted (invalidated) — entries of other keys are
untouched. -/
theorem wtUpdate_durable_failure_behavior :
    ∀ (cf : Bool) (s : WtState) (i : Nat) (u : User),
      (wtUpdateUser true cf s i u).1 = Except.error WtErr.transientStore ∧
      (wtUpdateUser true cf s i u).2.db = s.db ∧
      (wtUpdateUser true cf s i u).2.cache i = none ∧
      (∀ j : Nat, j ≠ i → (wtUpdateUser true cf s i u).2.cache j = s.cache j) := by
  intro cf s i u
  refine ⟨rfl, rfl, by simp [wtUpdateUser], ?_⟩
  intro j hj
  simp [wtUpdateUser, hj]

/-- Witness for `wtUpdate_durable_failure_behavior` at concrete inputs. -/
theorem wtUpdate_durable_failure_behavior_witness :
    (wtUpdateUser true false wtS0 1 wtUNew).2.cache 2 = wtS0.cache 2 :=
  (wtUpdate_durable_failure_behavior false wtS0 1 wtUNew).2.2.2 2 (by decide)

/-! ## Refresh-ahead lemmas -/

/-- Access tracking never touches the cache. -/
theorem raTrackAccess_cache (s : RaState) (i : Nat) :
    (raTrackAccess s i).cache = s.cache := by
  simp only [raTrackAccess]
  split <;> rfl

/-- Access tracking never touches the database. -/
theorem raTrackAccess_db (s : RaState) (i : Nat) :
    (raTrackAccess s i).db = s.db := by
  simp only [raTrackAccess]
  split <;> rfl

/-- Access tracking leaves the read counters alone. -/
theorem raTrackAccess_read_stats (s : RaState) (i : Nat) :
    (raTrackAccess s i).stats.total_reads = s.stats.total_reads ∧
    (raTrackAccess s i).stats.cache_hits = s.stats.cache_hits ∧
    (raTrackAccess s i).stats.cache_misses = s.stats.cache_misses := by
  simp only [raTrackAccess]
  split <;> exact ⟨rfl, rfl, rfl⟩

/-- Access tracking only ever adds to the hot set. -/
theorem raTrackAccess_hot_mono (s : RaState) (i k : Nat) :
    k ∈ s.hotSet → k ∈ (raTrackAccess s i).hotSet := by
  intro hk
  simp only [raTrackAccess]
  split
  · split
    · exact hk
    · exact List.mem_append_left _ hk
  · exact hk

/-- A single-user refresh never touches the database. -/
theorem raRefreshUser_db (s : RaState) (i : Nat) :
    (raRefreshUser s i).db = s.db := by
  simp only [raRefreshUser]
  split <;> rfl

/-- A single-user refresh only writes the refreshed key's cache entry. -/
theorem raRefreshUser_cache_other (s : RaState) (i k : Nat) (h : k ≠ i) :
    (raRefreshUser s i).cache k = s.cache k := by
  simp only [raRefreshUser]
  split
  · simp [h]
  · rfl

/-- A single-user refresh never touches the hot set. -/
theorem raRefreshUser_hot (s : RaState) (i : Nat) :
    (raRefreshUser s i).hotSet = s.hotSet := by
  simp only [raRefreshUser]
  split <;> rfl

/-- A single-user refresh never touches the stats. -/
theorem raRefreshUser_stats (s : RaState) (i : Nat) :
    (raRefreshUser s i).stats = s.stats := by
  simp only [raRefreshUser]
  split <;> rfl

/-- The per-key tick body never touches the database. -/
theorem raTickStep_db (s : RaState) (k : Nat) :
    (raTickStep s k).db = s.db := by
  simp only [raTickStep]
  split
  · rfl
  · split
    · exact raRefreshUser_db s k
    · rfl

/-- The per-key tick body leaves other keys' cache entries alone. -/
theorem raTickStep_cache_other (s : RaState) (k j : Nat) (h : j ≠ k) :
    (raTickStep s k).cache j = s.cache j := by
  simp only [raTickStep]
  split
  · rfl
  · split
    · exact raRefreshUser_cache_other s k j h
    · rfl

/-- The per-key tick body can remove only the processed key from the hot
set. -/
theorem raTickStep_hot_other (s : RaState) (k j : Nat) (h : j ≠ k) :
    j ∈ (raTickStep s k).hotSet ↔ j ∈ s.hotSet := by
  simp only [raTickStep]
  split
  · simp [List.mem_filter, h]
  · split
    · show j ∈ (raRefreshUser s k).hotSet ↔ j ∈ s.hotSet
      rw [raRefreshUser_hot]
    · exact Iff.rfl

/-- The per-key tick body never adds to the hot set. -/
theorem raTickStep_not_mem (s : RaState) (k j : Nat) (h : j ∉ s.hotSet) :
    j ∉ (raTickStep s k).hotSet := by
  simp only [raTickStep]
  split
  · intro hj
    exact h (List.mem_filter.mp hj).1
  · split
    · show j ∉ (raRefreshUser s k).hotSet
      rw [raRefreshUser_hot]
      exact h
    · exact h

/-- The per-key tick body leaves the read counters alone. -/
theorem raTickStep_read_stats (s : RaState) (k : Nat) :
    (raTickStep s k).stats.total_reads = s.stats.total_reads ∧
    (raTickStep s k).stats.cache_hits = s.stats.cache_hits ∧
    (raTickStep s k).stats.cache_misses = s.stats.cache_misses := by
  simp only [raTickStep]
  split
  · exact ⟨rfl, rfl, rfl⟩
  · split
    · refine ⟨?_, ?_, ?_⟩ <;> simp [raRefreshUser_stats]
    · exact ⟨rfl, rfl, rfl⟩

/-- Processing a key whose cache entry is gone demotes it. -/
theorem raTickStep_absent (s : RaState) (k : Nat) (h : s.cache k = none) :
    (raTickStep s k).hotSet = s.hotSet.filter (fun j => j ≠ k) := by
  simp only [raTickStep]
  rw [show raTtl s k = -2 by simp [raTtl, h]]
  norm_num

/-- Processing a live hot key whose remaining lifetime is below the
refresh limit reloads it from the database at full lifetime and leaves the
hot set alone. -/
theorem raTickStep_reload (s : RaState) (k : Nat) (u : User) (t : Nat) (r : DbRow)
    (hc : s.cache k = some (u, t)) (ht0 : 0 < t) (ht : (t : Int) < REFRESH_TTL_LIMIT)
    (hdb : dbLookup s.db k = some r) :
    (raTickStep s k).cache k = some (rowToUser r, RA_CACHE_TTL) ∧
    (raTickStep s k).hotSet = s.hotSet := by
  have h1 : ¬ raTtl s k ≤ 0 := by
    simp only [raTtl, hc]
    omega
  have h2 : raTtl s k < REFRESH_TTL_LIMIT := by
    simp only [raTtl, hc]
    exact ht
  simp only [raTickStep]
  rw [if_neg h1, if_pos h2]
  constructor
  · show (raRefreshUser s k).cache k = some (rowToUser r, RA_CACHE_TTL)
    simp only [raRefreshUser]
    rw [hdb]
    simp
  · show (raRefreshUser s k).hotSet = s.hotSet
    exact raRefreshUser_hot s k

/-- Processing a live hot key keeps it hot. -/
theorem raTickStep_self_hot (s : RaState) (k : Nat) (u : User) (t : Nat)
    (hc : s.cache k = some (u, t)) (ht0 : 0 < t) (hk : k ∈ s.hotSet) :
    k ∈ (raTickStep s k).hotSet := by
  have h1 : ¬ raTtl s k ≤ 0 := by
    simp only [raTtl, hc]
    omega
  simp only [raTickStep]
  rw [if_neg h1]
  split
  · show k ∈ (raRefreshUser s k).hotSet
    rw [raRefreshUser_hot]
    exact hk
  · exact hk

/-- Folding the tick body over any key list never touches the database. -/
theorem foldl_tick_db (l : List Nat) :
    ∀ s : RaState, (l.foldl raTickStep s).db = s.db := by
  induction l with
  | nil => intro s; rfl
  | cons a rest ih =>
    intro s
    rw [List.foldl_cons, ih, raTickStep_db]

/-- Folding the tick body over keys other than `k` leaves `k`'s cache
entry alone. -/
theorem foldl_tick_cache_of_not_mem (l : List Nat) (k : Nat) (h : k ∉ l) :
    ∀ s : RaState, (l.foldl raTickStep s).cache k = s.cache k := by
  induction l with
  | nil => intro s; rfl
  | cons a rest ih =>
    intro s
    have ha : k ≠ a := fun he => h (he ▸ List.mem_cons_self a rest)
    have hr : k ∉ rest := fun hm => h (List.mem_cons_of_mem a hm)
    rw [List.foldl_cons, ih hr, raTickStep_cache_other s a k ha]

/-- Folding the tick body over keys other than `k` leaves `k`'s hot-set
membership alone. -/
theorem foldl_tick_hot_of_not_mem (l : List Nat) (k : Nat) (h : k ∉ l) :
    ∀ s : RaState, (k ∈ (l.foldl raTickStep s).hotSet ↔ k ∈ s.hotSet) := by
  induction l with
  | nil => intro s; exact Iff.rfl
  | cons a rest ih =>
    intro s
    have ha : k ≠ a := fun he => h (he ▸ List.mem_cons_self a rest)
    have hr : k ∉ rest := fun hm => h (List.mem_cons_of_mem a hm)
    rw [List.foldl_cons]
    exact (ih hr (raTickStep s a)).trans (raTickStep_hot_other s a k ha)

/-- Folding the tick body never re-adds a key to the hot set. -/
theorem foldl_tick_not_mem_hot (l : List Nat) :
    ∀ (s : RaState) (k : Nat), k ∉ s.hotSet → k ∉ (l.foldl raTickStep s).hotSet := by
  induction l with
  | nil => intro s k h; exact h
  | cons a rest ih =>
    intro s k h
    rw [List.foldl_cons]
    exact ih _ k (raTickStep_not_mem s a k h)

/-- Folding the tick body leaves the read counters alone. -/
theorem foldl_tick_read_stats (l : List Nat) :
    ∀ s : RaState,
      (l.foldl raTickStep s).stats.total_reads = s.stats.total_reads ∧
      (l.foldl raTickStep s).stats.cache_hits = s.stats.cache_hits ∧
      (l.foldl raTickStep s).stats.cache_misses = s.stats.cache_misses := by
  induction l with
  | nil => intro s; exact ⟨rfl, rfl, rfl⟩
  | cons a rest ih =>
    intro s
    rw [List.foldl_cons]
    obtain ⟨h1, h2, h3⟩ := ih (raTickStep s a)
    obtain ⟨g1, g2, g3⟩ := raTickStep_read_stats s a
    exact ⟨h1.trans g1, h2.trans g2, h3.trans g3⟩

/-- Splitting a duplicate-free hot set around a member. -/
theorem hot_split (s : RaState) (k : Nat) (hk : k ∈ s.hotSet) (hnd : s.hotSet.Nodup) :
    ∃ l1 l2, s.hotSet = l1 ++ k :: l2 ∧ k ∉ l1 ∧ k ∉ l2 := by
  obtain ⟨l1, l2, h⟩ := List.append_of_mem hk
  have hnd2 : (l1 ++ k :: l2).Nodup := h ▸ hnd
  rw [List.nodup_append] at hnd2
  refine ⟨l1, l2, h, ?_, ?_⟩
  · intro hk1
    exact hnd2.2.2 hk1 (List.mem_cons_self k l2)
  · exact (List.nodup_cons.mp hnd2.2.1).1

/-- Unfolding a refresh tick on a nonempty hot set. -/
theorem raRefreshTick_unfold (s : RaState) (hne : s.hotSet ≠ []) :
    (raRefreshTick s).cache = (s.hotSet.foldl raTickStep s).cache ∧
    (raRefreshTick s).hotSet = (s.hotSet.foldl raTickStep s).hotSet := by
  have h : s.hotSet.isEmpty = false := by
    cases hq : s.hotSet
    · exact absurd hq hne
    · rfl
  simp only [raRefreshTick, h, Bool.false_eq_true, if_false]
  exact ⟨trivial, trivial⟩

/-- A read through `get_user` changes no hot-set membership except by
adding via tracking. -/
theorem raGetUser_hot (s : RaState) (i : Nat) :
    (raGetUser s i).2.hotSet = (raTrackAccess s i).hotSet := by
  simp only [raGetUser]
  split
  · rfl
  · split
    · rfl
    · rfl

/-! ## Claim theorems: refresh-ahead -/

/-- C4: under the service's state invariants (every cached id has a
durable row; live cache entries have positive TTL; the hot set is
duplicate-free), a refresh tick reloads every hot key whose remaining
lifetime is below the refresh limit (resetting it to the full
`CACHE_TTL`), and demotes every hot key whose cache entry has already
vanished. -/
theorem raRefreshTick_refreshes_low_hot :
    ∀ (s : RaState) (k : Nat),
      (∀ (j : Nat) (p : User × Nat), s.cache j = some p → (dbLookup s.db j).isSome = true) →
      s.hotSet.Nodup →
      k ∈ s.hotSet →
      ((∀ (u : User) (t : Nat),
          s.cache k = some (u, t) → 0 < t → (t : Int) < REFRESH_TTL_LIMIT →
          ∃ r : DbRow, dbLookup s.db k = some r ∧
            (raRefreshTick s).cache k = some (rowToUser r, RA_CACHE_TTL)) ∧
        (s.cache k = none → k ∉ (raRefreshTick s).hotSet)) := by
  intro s k hcons hnd hk
  have hne : s.hotSet ≠ [] := List.ne_nil_of_mem hk
  obtain ⟨hcache_eq, hhot_eq⟩ := raRefreshTick_unfold s hne
  obtain ⟨l1, l2, hsplit, h1, h2⟩ := hot_split s k hk hnd
  constructor
  · intro u t hc ht0 ht
    obtain ⟨r, hdb⟩ : ∃ r, dbLookup s.db k = some r := by
      have hs := hcons k (u, t) hc
      cases hq : dbLookup s.db k
      · rw [hq] at hs
        simp at hs
      · exact ⟨_, rfl⟩
    refine ⟨r, hdb, ?_⟩
    rw [hcache_eq, hsplit, List.foldl_append, List.foldl_cons]
    have hAc : (l1.foldl raTickStep s).cache k = some (u, t) := by
      rw [foldl_tick_cache_of_not_mem l1 k h1]
      exact hc
    have hAdb : dbLookup (l1.foldl raTickStep s).db k = some r := by
      rw [foldl_tick_db]
      exact hdb
    have hstep := raTickStep_reload (l1.foldl raTickStep s) k u t r hAc ht0 ht hAdb
    rw [foldl_tick_cache_of_not_mem l2 k h2]
    exact hstep.1
  · intro hc
    rw [hhot_eq, hsplit, List.foldl_append, List.foldl_cons]
    have hAc : (l1.foldl raTickStep s).cache k = none := by
      rw [foldl_tick_cache_of_not_mem l1 k h1]
      exact hc
    have hstep : k ∉ (raTickStep (l1.foldl raTickStep s) k).hotSet := by
      rw [raTickStep_absent _ k hAc]
      intro hmem
      have hne2 := (List.mem_filter.mp hmem).2
      simp at hne2
    exact foldl_tick_not_mem_hot l2 _ k hstep

/-- Witness for `raRefreshTick_refreshes_low_hot`: in `raS0` the hot user 1
(TTL 5 s) is reloaded at full lifetime; in `raS1` the hot user 1 (entry
gone) is demoted. -/
theorem raRefreshTick_refreshes_low_hot_witness :
    (∃ r : DbRow, dbLookup raS0.db 1 = some r ∧
        (raRefreshTick raS0).cache 1 = some (rowToUser r, RA_CACHE_TTL)) ∧
    1 ∉ (raRefreshTick raS1).hotSet := by
  constructor
  · exact (raRefreshTick_refreshes_low_hot raS0 1
      (by
        intro j p hp
        by_cases hj : j = 1
        · subst hj
          decide
        · simp [raS0, hj] at hp)
      (by decide) (by decide)).1 exUser1 5 rfl (by decide) (by decide)
  · exact (raRefreshTick_refreshes_low_hot raS1 1
      (by
        intro j p hp
        simp [raS1] at hp)
      (by decide) (by decide)).2 rfl

/-- C6, counterexample: in `raS0` user 1 is hot; `delete_user 1` succeeds
and removes key 1 from the hot set, so an operation other than the
scheduler's demotion step does remove hot-set members. -/
theorem raDeleteUser_removes_hot_key :
    1 ∈ raS0.hotSet ∧ (raDeleteUser raS0 1).1 = true ∧
    1 ∉ (raDeleteUser raS0 1).2.hotSet := by
  refine ⟨by decide, by decide, by decide⟩

/-- C6, amended: hot-set membership persists across tracking, reads,
creates and updates; it is removed only by the scheduler's demotion of a
key whose entry has vanished, or by `delete_user` of that same key (a
successful delete also drops the key from the hot set). -/
theorem raHotSet_persistence :
    ∀ (s : RaState) (k : Nat), k ∈ s.hotSet →
      (∀ i : Nat, k ∈ (raTrackAccess s i).hotSet) ∧
      (∀ i : Nat, k ∈ (raGetUser s i).2.hotSet) ∧
      (∀ i : Nat, k ∈ (raReadEndpoint s i).2.hotSet) ∧
      (∀ u : User, k ∈ (raCreateUser s u).2.hotSet) ∧
      (∀ (i : Nat) (u : User), k ∈ (raUpdateUser s i u).2.hotSet) ∧
      (∀ i : Nat, k ≠ i → k ∈ (raDeleteUser s i).2.hotSet) ∧
      (∀ (u : User) (t : Nat), s.cache k = some (u, t) → 0 < t → s.hotSet.Nodup →
          k ∈ (raRefreshTick s).hotSet) := by
  intro s k hk
  refine ⟨?_, ?_, ?_, ?_, ?_, ?_, ?_⟩
  · intro i
    exact raTrackAccess_hot_mono s i k hk
  · intro i
    rw [raGetUser_hot]
    exact raTrackAccess_hot_mono s i k hk
  · intro i
    rw [show (raReadEndpoint s i).2.hotSet
        = (raGetUser { s with stats := { s.stats with
            total_reads := s.stats.total_reads + 1 } } i).2.hotSet from rfl, raGetUser_hot]
    exact raTrackAccess_hot_mono _ i k hk
  · intro u
    exact hk
  · intro i u
    simp only [raUpdateUser]
    split
    · exact hk
    · exact hk
  · intro i hki
    simp only [raDeleteUser]
    split
    · exact List.mem_filter.mpr ⟨hk, by simp [hki]⟩
    · exact hk
  · intro u t hc ht0 hnd
    have hne : s.hotSet ≠ [] := List.ne_nil_of_mem hk
    obtain ⟨_, hhot_eq⟩ := raRefreshTick_unfold s hne
    obtain ⟨l1, l2, hsplit, h1, h2⟩ := hot_split s k hk hnd
    rw [hhot_eq, hsplit, List.foldl_append, List.foldl_cons]
    have hAc : (l1.foldl raTickStep s).cache k = some (u, t) := by
      rw [foldl_tick_cache_of_not_mem l1 k h1]
      exact hc
    have hAk : k ∈ (l1.foldl raTickStep s).hotSet :=
      (foldl_tick_hot_of_not_mem l1 k h1 s).mpr hk
    have hstep : k ∈ (raTickStep (l1.foldl raTickStep s) k).hotSet :=
      raTickStep_self_hot _ k u t hAc ht0 hAk
    exact (foldl_tick_hot_of_not_mem l2 k h2 _).mpr hstep

/-- Witness for `raHotSet_persistence` at concrete inputs. -/
theorem raHotSet_persistence_witness :
    1 ∈ (raDeleteUser raS0 2).2.hotSet ∧ 1 ∈ (raRefreshTick raS0).hotSet := by
  constructor
  · exact ((raHotSet_persistence raS0 1 (by decide)).2.2.2.2.2.1) 2 (by decide)
  · exact ((raHotSet_persistence raS0 1 (by decide)).2.2.2.2.2.2) exUser1 5 rfl
      (by decide) (by decide)

/-- `get_user` keeps `total_reads` and bumps exactly one of the hit/miss
counters (a missing row still counts as a miss). -/
theorem raGetUser_read_stats (s : RaState) (i : Nat) :
    (raGetUser s i).2.stats.total_reads = s.stats.total_reads ∧
    (((raGetUser s i).2.stats.cache_hits = s.stats.cache_hits + 1 ∧
        (raGetUser s i).2.stats.cache_misses = s.stats.cache_misses) ∨
      ((raGetUser s i).2.stats.cache_hits = s.stats.cache_hits ∧
        (raGetUser s i).2.stats.cache_misses = s.stats.cache_misses + 1)) := by
  obtain ⟨t1, t2, t3⟩ := raTrackAccess_read_stats s i
  simp only [raGetUser]
  split
  · exact ⟨t1, Or.inl ⟨by rw [t2], t3⟩⟩
  · split
    · exact ⟨t1, Or.inr ⟨t2, by rw [t3]⟩⟩
    · exact ⟨t1, Or.inr ⟨t2, by rw [t3]⟩⟩

/-- C9: every completed read bumps `total_reads` by one and exactly one of
`cache_hits`/`cache_misses` (a read of a nonexistent entity counts as a
miss), so it preserves `cache_hits + cache_misses = total_reads`; no other
operation of the service touches these three counters. -/
theorem raStats_read_invariant :
    (∀ (s : RaState) (i : Nat),
        (raReadEndpoint s i).2.stats.total_reads = s.stats.total_reads + 1 ∧
        (((raReadEndpoint s i).2.stats.cache_hits = s.stats.cache_hits + 1 ∧
            (raReadEndpoint s i).2.stats.cache_misses = s.stats.cache_misses) ∨
          ((raReadEndpoint s i).2.stats.cache_hits = s.stats.cache_hits ∧
            (raReadEndpoint s i).2.stats.cache_misses = s.stats.cache_misses + 1)) ∧
        (s.stats.cache_hits + s.stats.cache_misses = s.stats.total_reads →
          (raReadEndpoint s i).2.stats.cache_hits + (raReadEndpoint s i).2.stats.cache_misses
            = (raReadEndpoint s i).2.stats.total_reads)) ∧
    (∀ (s : RaState) (u : User),
        (raCreateUser s u).2.stats.total_reads = s.stats.total_reads ∧
        (raCreateUser s u).2.stats.cache_hits = s.stats.cache_hits ∧
        (raCreateUser s u).2.stats.cache_misses = s.stats.cache_misses) ∧
    (∀ (s : RaState) (i : Nat) (u : User),
        (raUpdateUser s i u).2.stats.total_reads = s.stats.total_reads ∧
        (raUpdateUser s i u).2.stats.cache_hits = s.stats.cache_hits ∧
        (raUpdateUser s i u).2.stats.cache_misses = s.stats.cache_misses) ∧
    (∀ (s : RaState) (i : Nat),
        (raDeleteUser s i).2.stats.total_reads = s.stats.total_reads ∧
        (raDeleteUser s i).2.stats.cache_hits = s.stats.cache_hits ∧
        (raDeleteUser s i).2.stats.cache_misses = s.stats.cache_misses) ∧
    (∀ s : RaState,
        (raRefreshTick s).stats.total_reads = s.stats.total_reads ∧
        (raRefreshTick s).stats.cache_hits = s.stats.cache_hits ∧
        (raRefreshTick s).stats.cache_misses = s.stats.cache_misses) ∧
    (∀ (s : RaState) (i : Nat),
        (raTrackAccess s i).stats.total_reads = s.stats.total_reads ∧
        (raTrackAccess s i).stats.cache_hits = s.stats.cache_hits ∧
        (raTrackAccess s i).stats.cache_misses = s.stats.cache_misses) := by
  refine ⟨?_, ?_, ?_, ?_, ?_, ?_⟩
  · intro s i
    obtain ⟨g1, g2⟩ := raGetUser_read_stats
      { s with stats := { s.stats with total_reads := s.stats.total_reads + 1 } } i
    have e1 : (raReadEndpoint s i).2.stats.total_reads = s.stats.total_reads + 1 := g1
    have e2 : ((raReadEndpoint s i).2.stats.cache_hits = s.stats.cache_hits + 1 ∧
          (raReadEndpoint s i).2.stats.cache_misses = s.stats.cache_misses) ∨
        ((raReadEndpoint s i).2.stats.cache_hits = s.stats.cache_hits ∧
          (raReadEndpoint s i).2.stats.cache_misses = s.stats.cache_misses + 1) := g2
    refine ⟨e1, e2, ?_⟩
    intro h
    rcases e2 with ⟨a, b⟩ | ⟨a, b⟩ <;> rw [a, b, e1] <;> omega
  · intro s u
    exact ⟨rfl, rfl, rfl⟩
  · intro s i u
    simp only [raUpdateUser]
    split
    · exact ⟨rfl, rfl, rfl⟩
    · exact ⟨rfl, rfl, rfl⟩
  · intro s i
    simp only [raDeleteUser]
    split
    · exact ⟨rfl, rfl, rfl⟩
    · exact ⟨rfl, rfl, rfl⟩
  · intro s
    simp only [raRefreshTick]
    split
    · exact ⟨rfl, rfl, rfl⟩
    · exact foldl_tick_read_stats s.hotSet s
  · intro s i
    exact raTrackAccess_read_stats s i

/-- Witness for `raStats_read_invariant`: the invariant is preserved by a
concrete read on `raS0`. -/
theorem raStats_read_invariant_witness :
    (raReadEndpoint raS0 1).2.stats.cache_hits + (raReadEndpoint raS0 1).2.stats.cache_misses
      = (raReadEndpoint raS0 1).2.stats.total_reads :=
  (raStats_read_invariant.1 raS0 1).2.2 (by decide)

/-! ## The hypotheses of the refresh-ahead claims are program invariants -/

/-- A durable lookup succeeds exactly when some row carries the id. -/
theorem dbLookup_isSome_iff (db : Db) (j : Nat) :
    (dbLookup db j).isSome = true ↔ ∃ r ∈ db.rows, r.id = j := by
  rw [dbLookup, List.find?_isSome]
  simp

/-- An update-by-id rewrites attributes in place: it changes no row ids,
hence no lookup success. -/
theorem dbUpdateById_lookup_isSome (db : Db) (i : Nat) (u : User) (j : Nat) :
    ((dbLookup (dbUpdateById db i u) j).isSome = true)
      ↔ ((dbLookup db j).isSome = true) := by
  rw [dbLookup_isSome_iff, dbLookup_isSome_iff]
  constructor
  · rintro ⟨r, hr, hid⟩
    simp only [dbUpdateById, List.mem_map] at hr
    obtain ⟨r0, hr0, hfr⟩ := hr
    refine ⟨r0, hr0, ?_⟩
    rw [← hid, ← hfr]
    split <;> rfl
  · rintro ⟨r, hr, hid⟩
    refine ⟨if r.id = i then { r with name := u.name, email := u.email, age := u.age } else r,
      ?_, ?_⟩
    · simp only [dbUpdateById, List.mem_map]
      exact ⟨r, hr, rfl⟩
    · split <;> exact hid
  
/-- Appending rows cannot make a previously successful lookup fail. -/
theorem dbLookup_isSome_of_append (rows2 : List DbRow) (n : Nat) (db : Db) (j : Nat)
    (h : (dbLookup db j).isSome = true) :
    (dbLookup { rows := db.rows ++ rows2, nextId := n } j).isSome = true := by
  rw [dbLookup_isSome_iff] at h ⊢
  obtain ⟨r, hr, hid⟩ := h
  exact ⟨r, List.mem_append_left _ hr, hid⟩

/-- Deleting one id keeps lookups of other ids successful. -/
theorem dbDeleteById_lookup_isSome (db : Db) (i j : Nat) (hj : j ≠ i)
    (h : (dbLookup db j).isSome = true) :
    (dbLookup (dbDeleteById db i) j).isSome = true := by
  rw [dbLookup_isSome_iff] at h ⊢
  obtain ⟨r, hr, hid⟩ := h
  refine ⟨r, ?_, hid⟩
  simp only [dbDeleteById, List.mem_filter]
  refine ⟨hr, ?_⟩
  simp [hid, hj]

/-- `get_user` never changes the database. -/
theorem raGetUser_db (s : RaState) (i : Nat) :
    (raGetUser s i).2.db = s.db := by
  simp only [raGetUser]
  split
  · exact raTrackAccess_db s i
  · split
    · exact raTrackAccess_db s i
    · exact raTrackAccess_db s i

/-- Access tracking preserves the consistency invariant. -/
theorem raConsistent_trackAccess (s : RaState) (i : Nat) (h : raConsistent s) :
    raConsistent (raTrackAccess s i) := by
  intro j p hp
  rw [raTrackAccess_cache] at hp
  rw [raTrackAccess_db]
  exact h j p hp

/-- Reads preserve the consistency invariant: a miss fill caches only the
row it just fetched. -/
theorem raConsistent_getUser (s : RaState) (i : Nat) (h : raConsistent s) :
    raConsistent (raGetUser s i).2 := by
  have hdbeq := raTrackAccess_db s i
  have hceq := raTrackAccess_cache s i
  intro j p hp
  rw [raGetUser_db]
  simp only [raGetUser] at hp
  rcases hc : (raTrackAccess s i).cache i with _ | q
  · rw [hc] at hp
    rcases hdb : dbLookup (raTrackAccess s i).db i with _ | r
    · rw [hdb] at hp
      have hp2 : (raTrackAccess s i).cache j = some p := hp
      rw [hceq] at hp2
      exact h j p hp2
    · rw [hdb] at hp
      by_cases hj : j = i
      · subst hj
        rw [hdbeq] at hdb
        rw [hdb]
        rfl
      · have hp2 : (raTrackAccess s i).cache j = some p := by
          simpa [hj] using hp
        rw [hceq] at hp2
        exact h j p hp2
  · rw [hc] at hp
    have hp2 : (raTrackAccess s i).cache j = some p := hp
    rw [hceq] at hp2
    exact h j p hp2

/-- The read endpoint preserves the consistency invariant. -/
theorem raConsistent_readEndpoint (s : RaState) (i : Nat) (h : raConsistent s) :
    raConsistent (raReadEndpoint s i).2 :=
  raConsistent_getUser
    { s with stats := { s.stats with total_reads := s.stats.total_reads + 1 } } i
    (fun j p hp => h j p hp)

/-- Creates preserve the consistency invariant: the cached entry is the
row just inserted. -/
theorem raConsistent_createUser (s : RaState) (u : User) (h : raConsistent s) :
    raConsistent (raCreateUser s u).2 := by
  intro j p hp
  show (dbLookup { rows := s.db.rows ++ [{ id := s.db.nextId, name := u.name, email := u.email, age := u.age }], nextId := s.db.nextId + 1 } j).isSome = true
  by_cases hj : j = s.db.nextId
  · subst hj
    rw [dbLookup_isSome_iff]
    exact ⟨_, List.mem_append_right _ (List.mem_singleton_self _), rfl⟩
  · have hp2 : s.cache j = some p := by
      simpa [raCreateUser, hj] using hp
    exact dbLookup_isSome_of_append _ _ s.db j (h j p hp2)

/-- Updates preserve the consistency invariant. -/
theorem raConsistent_updateUser (s : RaState) (i : Nat) (u : User) (h : raConsistent s) :
    raConsistent (raUpdateUser s i u).2 := by
  intro j p hp
  simp only [raUpdateUser] at hp ⊢
  rcases hdb : dbLookup s.db i with _ | r
  · rw [hdb] at hp
    have hp2 : s.cache j = some p := hp
    show (dbLookup (dbUpdateById s.db i u) j).isSome = true
    rw [dbUpdateById_lookup_isSome]
    exact h j p hp2
  · rw [hdb] at hp
    show (dbLookup (dbUpdateById s.db i u) j).isSome = true
    rw [dbUpdateById_lookup_isSome]
    by_cases hj : j = i
    · subst hj
      rw [hdb]
      rfl
    · have hp2 : s.cache j = some p := by
        have hp3 : (if j = i
            then some ({ id := i, name := u.name, email := u.email, age := u.age },
              RA_CACHE_TTL)
            else s.cache j) = some p := hp
        rwa [if_neg hj] at hp3
      exact h j p hp2

/-- Deletes preserve the consistency invariant: the cache key is dropped
with the row. -/
theorem raConsistent_deleteUser (s : RaState) (i : Nat) (h : raConsistent s) :
    raConsistent (raDeleteUser s i).2 := by
  intro j p hp
  simp only [raDeleteUser] at hp ⊢
  cases hl : (dbLookup s.db i).isSome
  · rw [hl] at hp
    have hp2 : s.cache j = some p := hp
    show (dbLookup s.db j).isSome = true
    exact h j p hp2
  · rw [hl] at hp
    show (dbLookup (dbDeleteById s.db i) j).isSome = true
    by_cases hj : j = i
    · have hp2 : (none : Option (User × Nat)) = some p := by
        have hp3 : (if j = i then none else s.cache j) = some p := hp
        rwa [if_pos hj] at hp3
      exact absurd hp2 (by simp)
    · have hp2 : s.cache j = some p := by
        have hp3 : (if j = i then none else s.cache j) = some p := hp
        rwa [if_neg hj] at hp3
      exact dbDeleteById_lookup_isSome s.db i j hj (h j p hp2)

/-- One tick step preserves the consistency invariant: a reload caches
only a fetched row, a demotion touches no cache entry. -/
theorem raConsistent_tickStep (s : RaState) (k : Nat) (h : raConsistent s) :
    raConsistent (raTickStep s k) := by
  intro j p hp
  rw [raTickStep_db]
  by_cases hj : j = k
  · subst hj
    simp only [raTickStep] at hp
    split at hp
    · exact h j p hp
    · split at hp
      · have hp2 : (raRefreshUser s j).cache j = some p := hp
        simp only [raRefreshUser] at hp2
        rcases hdb : dbLookup s.db j with _ | r
        · rw [hdb] at hp2
          have hp3 : s.cache j = some p := hp2
          have hx := h j p hp3
          rw [hdb] at hx
          exact hx
        · rfl
      · exact h j p hp
  · rw [raTickStep_cache_other s k j hj] at hp
    exact h j p hp

/-- Folding tick steps preserves the consistency invariant. -/
theorem raConsistent_foldl_tick (l : List Nat) :
    ∀ s : RaState, raConsistent s → raConsistent (l.foldl raTickStep s) := by
  induction l with
  | nil => intro s h; exact h
  | cons a rest ih =>
    intro s h
    rw [List.foldl_cons]
    exact ih _ (raConsistent_tickStep s a h)

/-- A whole refresh tick preserves the consistency invariant. -/
theorem raConsistent_refreshTick (s : RaState) (h : raConsistent s) :
    raConsistent (raRefreshTick s) := by
  simp only [raRefreshTick]
  split
  · exact h
  · intro j p hp
    exact raConsistent_foldl_tick s.hotSet s h j p hp

/-- The passage of time preserves the consistency invariant: entries only
expire. -/
theorem raConsistent_passTime (s : RaState) (d : Nat) (h : raConsistent s) :
    raConsistent (raPassTime s d) := by
  intro j p hp
  simp only [raPassTime] at hp
  show (dbLookup s.db j).isSome = true
  rcases hc : s.cache j with _ | ⟨u, t⟩
  · rw [hc] at hp
    have hp2 : (none : Option (User × Nat)) = some p := hp
    exact absurd hp2 (by simp)
  · rw [hc] at hp
    by_cases hq : t ≤ d
    · have hp2 : (none : Option (User × Nat)) = some p := by
        have hp3 : (if t ≤ d then none else some (u, t - d)) = some p := hp
        rwa [if_pos hq] at hp3
      exact absurd hp2 (by simp)
    · exact h j (u, t) hc

/-- Promotion adds a key only when it is not yet hot, so the hot set stays
duplicate-free (as a Redis set is). -/
theorem raHotSet_nodup_trackAccess (s : RaState) (i : Nat) (h : s.hotSet.Nodup) :
    (raTrackAccess s i).hotSet.Nodup := by
  simp only [raTrackAccess]
  split
  · split
    · exact h
    · rename_i hmem
      rw [List.nodup_append]
      refine ⟨h, List.nodup_singleton i, ?_⟩
      intro a ha hai
      rw [List.mem_singleton] at hai
      subst hai
      exact hmem ha
  · exact h

/-- Reads keep the hot set duplicate-free. -/
theorem raHotSet_nodup_getUser (s : RaState) (i : Nat) (h : s.hotSet.Nodup) :
    (raGetUser s i).2.hotSet.Nodup := by
  rw [raGetUser_hot]
  exact raHotSet_nodup_trackAccess s i h

/-- The read endpoint keeps the hot set duplicate-free. -/
theorem raHotSet_nodup_readEndpoint (s : RaState) (i : Nat) (h : s.hotSet.Nodup) :
    (raReadEndpoint s i).2.hotSet.Nodup :=
  raHotSet_nodup_getUser
    { s with stats := { s.stats with total_reads := s.stats.total_reads + 1 } } i h

/-- Deletes keep the hot set duplicate-free. -/
theorem raHotSet_nodup_deleteUser (s : RaState) (i : Nat) (h : s.hotSet.Nodup) :
    (raDeleteUser s i).2.hotSet.Nodup := by
  simp only [raDeleteUser]
  split
  · exact h.filter _
  · exact h

/-- One tick step keeps the hot set duplicate-free. -/
theorem raHotSet_nodup_tickStep (s : RaState) (k : Nat) (h : s.hotSet.Nodup) :
    (raTickStep s k).hotSet.Nodup := by
  simp only [raTickStep]
  split
  · exact h.filter _
  · split
    · show (raRefreshUser s k).hotSet.Nodup
      rw [raRefreshUser_hot]
      exact h
    · exact h

/-- Folding tick steps keeps the hot set duplicate-free. -/
theorem raHotSet_nodup_foldl_tick (l : List Nat) :
    ∀ s : RaState, s.hotSet.Nodup → (l.foldl raTickStep s).hotSet.Nodup := by
  induction l with
  | nil => intro s h; exact h
  | cons a rest ih =>
    intro s h
    rw [List.foldl_cons]
    exact ih _ (raHotSet_nodup_tickStep s a h)

/-- A whole refresh tick keeps the hot set duplicate-free. -/
theorem raHotSet_nodup_refreshTick (s : RaState) (h : s.hotSet.Nodup) :
    (raRefreshTick s).hotSet.Nodup := by
  simp only [raRefreshTick]
  split
  · exact h
  · exact raHotSet_nodup_foldl_tick s.hotSet s h
